import Mathlib

/-!
# Verification of the OCRmyPDF-PaddlePaddle PDF generator core

Shallow embedding of `src/ocrmypdf_paddlepaddle/generators/pdf.py`:
geometry transforms (`pt_from_pixel`, `bbox_to_poly`, `poly_to_quad`),
the content-stream builder, `generate_text_content_stream`, the
CID-to-GID map built by `register_glyphlessfont`, and the input
validation of `paddleocr_to_pdf`.

Numbers are modelled by `ℚ` (exact arithmetic in place of IEEE floats).
The transcendental library functions used by the source (`math.atan2`,
`math.cos`, `math.sin`, `math.hypot`) are abstracted as a record of
functions `FloatOps`; theorems that depend on particular values of these
functions (e.g. `cos 0 = 1`) take those facts — true of the IEEE
implementations — as explicit hypotheses.
-/

namespace OcrPdf

/-! ## PDF content-stream instructions

`ContentStreamInstruction(operands, Operator(op))` from pikepdf is
modelled as `Instr`.  Operand values: numbers, PDF names, the
`Dictionary(MCID=n)` operand of `BDC`, arrays, and byte strings. -/

inductive Operand where
  | num (q : ℚ)
  | name (n : String)
  | mcidDict (n : ℕ)
  | arr (elems : List Operand)
  | str (bytes : List ℕ)

structure Instr where
  operands : List Operand
  op : String

/-! ## UTF-16BE encoding

Python's `text.encode("utf-16be")`: each Unicode scalar value below
`0x10000` becomes one big-endian 16-bit unit; scalar values at or above
`0x10000` become a surrogate pair; each unit is two bytes. -/

def utf16UnitsOfChar (c : Char) : List ℕ :=
  if c.toNat < 0x10000 then [c.toNat]
  else
    let v := c.toNat - 0x10000
    [0xD800 + v / 0x400, 0xDC00 + v % 0x400]

def unitBytes (u : ℕ) : List ℕ := [u / 256, u % 256]

def encodeUTF16BE (s : String) : List ℕ :=
  (s.data.flatMap utf16UnitsOfChar).flatMap unitBytes

/-- Decoder for well-formed UTF-16BE byte sequences: pair bytes into
big-endian units. -/
def bytesToUnits : List ℕ → List ℕ
  | b1 :: b2 :: rest => (b1 * 256 + b2) :: bytesToUnits rest
  | _ => []

/-- Decoder for well-formed UTF-16BE unit sequences: a high surrogate
consumes the following low surrogate. -/
def unitsToChars : List ℕ → List Char
  | [] => []
  | [u] =>
    if 0xD800 ≤ u ∧ u < 0xDC00 then [Char.ofNat 0xFFFD] else [Char.ofNat u]
  | u :: lo :: rest =>
    if 0xD800 ≤ u ∧ u < 0xDC00 then
      Char.ofNat ((u - 0xD800) * 0x400 + (lo - 0xDC00) + 0x10000)
        :: unitsToChars rest
    else Char.ofNat u :: unitsToChars (lo :: rest)

def decodeUTF16BE (bs : List ℕ) : String := ⟨unitsToChars (bytesToUnits bs)⟩

/-! ## Content-stream builder instruction constructors

One constructor per `ContentStreamBuilder` method; each method of the
Python class appends exactly the instruction built here. -/

namespace CS

def q : Instr := ⟨[], "q"⟩

def Q : Instr := ⟨[], "Q"⟩

def cm (a b c d e f : ℚ) : Instr :=
  ⟨[.num a, .num b, .num c, .num d, .num e, .num f], "cm"⟩

def BT : Instr := ⟨[], "BT"⟩

def ET : Instr := ⟨[], "ET"⟩

def BDC (mctype : String) (mcid : ℕ) : Instr :=
  ⟨[.name mctype, .mcidDict mcid], "BDC"⟩

def EMC : Instr := ⟨[], "EMC"⟩

def Tf (font : String) (size : ℚ) : Instr := ⟨[.name font, .num size], "Tf"⟩

def Tm (a b c d e f : ℚ) : Instr :=
  ⟨[.num a, .num b, .num c, .num d, .num e, .num f], "Tm"⟩

def Tr (mode : ℚ) : Instr := ⟨[.num mode], "Tr"⟩

def Tz (scale : ℚ) : Instr := ⟨[.num scale], "Tz"⟩

def TJ (text : String) : Instr := ⟨[.arr [.str (encodeUTF16BE text)]], "TJ"⟩

def s : Instr := ⟨[], "s"⟩

def re (x y w h : ℚ) : Instr := ⟨[.num x, .num y, .num w, .num h], "re"⟩

def RG (r g b : ℚ) : Instr := ⟨[.num r, .num g, .num b], "RG"⟩

end CS

/-! ## Abstracted math library -/

structure FloatOps where
  atan2 : ℚ → ℚ → ℚ
  cos : ℚ → ℚ
  sin : ℚ → ℚ
  hypot : ℚ → ℚ → ℚ

/-! ## Geometry transforms (source lines 35-54) -/

/-- `zip(bbox[0::2], bbox[1::2])`: consecutive pairs, truncating a
dangling element. -/
def toPairs : List ℚ → List (ℚ × ℚ)
  | x :: y :: rest => (x, y) :: toPairs rest
  | _ => []

/-- `pt_from_pixel(bbox, scale, height)`: map every pixel pair `(x, y)`
to `(x * scale[0], (height - y) * scale[1])` and flatten. -/
def pt_from_pixel (bbox : List ℚ) (scale : ℚ × ℚ) (height : ℚ) : List ℚ :=
  (toPairs bbox).flatMap (fun p => [p.1 * scale.1, (height - p.2) * scale.2])

/-- `bbox_to_poly([x1, y1, x2, y2])`: corners top-left, top-right,
bottom-right, bottom-left.  A list that is not a 4-tuple would raise in
Python (caught by the per-word handler); modelled as `[]`, which the
subsequent `len(quad) != 8` guard rejects the same way. -/
def bbox_to_poly (bbox : List ℚ) : List (List ℚ) :=
  match bbox with
  | [x1, y1, x2, y2] => [[x1, y1], [x2, y1], [x2, y2], [x1, y2]]
  | _ => []

/-- `poly_to_quad(poly)`: flatten the point list. -/
def poly_to_quad (poly : List (List ℚ)) : List ℚ := poly.flatten

/-! ## Data model (`core/models.py`) -/

structure Word where
  text : String
  bbox : List ℚ
  score : ℚ
deriving DecidableEq

structure Block where
  label : String
  bbox : List ℚ
  content : String
  ocr_words : List Word
deriving DecidableEq

structure PaddleResult where
  blocks : List Block
deriving DecidableEq

/-! ## generate_text_content_stream (source lines 237-333) -/

def CHAR_ASPECT : ℚ := 2

def ANGLE_THRESHOLD_RAD : ℚ := 1 / 100

def TEXT_RENDER_MODE_INVISIBLE : ℚ := 3

def HORIZONTAL_SCALE_FACTOR : ℚ := 100

/-- The transformed 8-coordinate point list of a word
(`bbox = pt_from_pixel(quad, scale, height)` at line 283). -/
def wordPts (scale : ℚ × ℚ) (height : ℚ) (w : Word) : List ℚ :=
  pt_from_pixel (poly_to_quad (bbox_to_poly w.bbox)) scale height

/-- `angle = -atan2(bbox[5] - bbox[7], bbox[4] - bbox[6])` (line 284). -/
def rawAngle (ops : FloatOps) (b : List ℚ) : ℚ :=
  -(ops.atan2 (b.getD 5 0 - b.getD 7 0) (b.getD 4 0 - b.getD 6 0))

/-- Lines 285-286: snap near-horizontal angles to exactly zero. -/
def snapAngle (a : ℚ) : ℚ := if |a| < ANGLE_THRESHOLD_RAD then 0 else a

/-- `font_size = hypot(bbox[0] - bbox[6], bbox[1] - bbox[7])` (line 289). -/
def font_size (ops : FloatOps) (b : List ℚ) : ℚ :=
  ops.hypot (b.getD 0 0 - b.getD 6 0) (b.getD 1 0 - b.getD 7 0)

def space_width : ℚ := 0

/-- `box_width = hypot(bbox[4] - bbox[6], bbox[5] - bbox[7]) + space_width`
(line 293). -/
def box_width (ops : FloatOps) (b : List ℚ) : ℚ :=
  ops.hypot (b.getD 4 0 - b.getD 6 0) (b.getD 5 0 - b.getD 7 0) + space_width

/-- `h_stretch` (lines 299-305). -/
def h_stretch (ops : FloatOps) (b : List ℚ) (text : String) : ℚ :=
  HORIZONTAL_SCALE_FACTOR * box_width ops b / (text.length : ℚ)
    / font_size ops b * CHAR_ASPECT

/-- The `BT … ET` run emitted for a kept word (lines 308-316). -/
def wordRun (ops : FloatOps) (scale : ℚ × ℚ) (height : ℚ) (mcid : ℕ)
    (w : Word) : List Instr :=
  let b := wordPts scale height w
  let angle := snapAngle (rawAngle ops b)
  let cos_a := ops.cos angle
  let sin_a := ops.sin angle
  [CS.BT,
   CS.BDC "/Span" mcid,
   CS.Tr TEXT_RENDER_MODE_INVISIBLE,
   CS.Tm cos_a (-sin_a) sin_a cos_a (b.getD 6 0) (b.getD 7 0),
   CS.Tf "/f-0-0" (font_size ops b),
   CS.Tz (h_stretch ops b w.text),
   CS.TJ w.text,
   CS.EMC,
   CS.ET]

/-- The debug-box run emitted after a kept word when `boxes` (lines 319-325). -/
def debugRun (ops : FloatOps) (scale : ℚ × ℚ) (height : ℚ) (w : Word) :
    List Instr :=
  let b := wordPts scale height w
  let angle := snapAngle (rawAngle ops b)
  let cos_a := ops.cos angle
  let sin_a := ops.sin angle
  [CS.q,
   CS.cm cos_a (-sin_a) sin_a cos_a (b.getD 6 0) (b.getD 7 0),
   CS.re 0 0 (box_width ops b) (font_size ops b),
   CS.RG 100 100 100,
   CS.s,
   CS.Q]

/-- Per-word processing (lines 265-330): either the run for the word, or
`none` when one of the guards at lines 272, 279 or 296 skips it.  The
`try/except` around the body is unreachable in this typed model (dict
`get` cannot fail on a typed record). -/
def emitWord (ops : FloatOps) (scale : ℚ × ℚ) (height : ℚ) (boxes : Bool)
    (mcid : ℕ) (w : Word) : Option (List Instr) :=
  if w.text = "" ∨ w.bbox.length ≠ 4 then none
  else
    let quad := poly_to_quad (bbox_to_poly w.bbox)
    if quad.length ≠ 8 then none
    else
      let b := pt_from_pixel quad scale height
      if w.text.length = 0 ∨ box_width ops b ≤ 0 ∨ font_size ops b ≤ 0 then
        none
      else
        some (wordRun ops scale height mcid w ++
          (if boxes then debugRun ops scale height w else []))

/-- The loop body: append the word run (if any) to the accumulated
stream and advance `mcid_counter` only for emitted runs (line 327). -/
def processWord (ops : FloatOps) (scale : ℚ × ℚ) (height : ℚ) (boxes : Bool)
    (st : List Instr × ℕ) (w : Word) : List Instr × ℕ :=
  match emitWord ops scale height boxes st.2 w with
  | none => st
  | some run => (st.1 ++ run, st.2 + 1)

/-- The per-block loop (lines 256-330); a block without words only logs. -/
def processBlock (ops : FloatOps) (scale : ℚ × ℚ) (height : ℚ) (boxes : Bool)
    (st : List Instr × ℕ) (blk : Block) : List Instr × ℕ :=
  blk.ocr_words.foldl (processWord ops scale height boxes) st

/-- `generate_text_content_stream` (lines 237-333).  A Python caller can
pass `None` for `ocr_result`; modelled by `Option`. -/
def generate_text_content_stream (ops : FloatOps)
    (ocr_result : Option PaddleResult) (scale : ℚ × ℚ) (height : ℚ)
    (boxes : Bool) : List Instr :=
  match ocr_result with
  | none => [CS.q, CS.Q]
  | some r =>
    if r.blocks = [] then [CS.q, CS.Q]
    else
      let st := r.blocks.foldl (processBlock ops scale height boxes)
        ([CS.q], 0)
      st.1 ++ [CS.Q]

/-! ## register_glyphlessfont: the CID-to-GID map stream (source line 86)

`cid_font_type2.CIDToGIDMap = pdf.make_stream(b"\x00\x01" * 65536)`. -/

def cid_to_gid_map : List ℕ := (List.replicate 65536 [0, 1]).flatten

/-- Glyph index that a PDF reader looks up for CID `c` in a CIDToGIDMap
stream: big-endian 16-bit entry at byte offset `2 * c`. -/
def gidOfCid (c : ℕ) : ℕ :=
  cid_to_gid_map.getD (2 * c) 0 * 256 + cid_to_gid_map.getD (2 * c + 1) 0

/-! ## paddleocr_to_pdf (source lines 336-387)

The filesystem and PIL are abstracted: the caller's image either exists
or not, and an existing image carries its PIL-reported dpi (absent means
the `(72, 72)` default at line 353) and pixel dimensions.  Allocation of
document resources (blank page, font registration, content stream,
save) is recorded as an event trace, in source order. -/

structure ImageInfo where
  dpi : Option (ℚ × ℚ)
  width : ℤ
  height : ℤ

inductive PdfError where
  | fileNotFound
  | invalidScale
  | invalidDimensions
deriving DecidableEq

inductive PdfEvent where
  | addBlankPage
  | registerFont
  | makeContentStream
  | savePdf
deriving DecidableEq

def PDF_POINTS_PER_INCH : ℚ := 72

/-- `paddleocr_to_pdf`: validation in source order (lines 344, 347, 357),
then page creation, font registration, content-stream generation and
save (lines 373-382).  Returns the event trace of allocated document
resources together with the outcome. -/
def paddleocr_to_pdf (ops : FloatOps) (imageExists : Bool) (img : ImageInfo)
    (image_scale : ℚ) (ocr_result : Option PaddleResult) (boxes : Bool) :
    List PdfEvent × Except PdfError (List Instr) :=
  if imageExists = false then ([], .error .fileNotFound)
  else if image_scale ≤ 0 then ([], .error .invalidScale)
  else
    let dpi := img.dpi.getD (PDF_POINTS_PER_INCH, PDF_POINTS_PER_INCH)
    if img.width ≤ 0 ∨ img.height ≤ 0 then ([], .error .invalidDimensions)
    else
      let scale := (PDF_POINTS_PER_INCH / dpi.1 / image_scale,
                    PDF_POINTS_PER_INCH / dpi.2 / image_scale)
      let cs := generate_text_content_stream ops ocr_result scale
        (img.height : ℚ) boxes
      ([.addBlankPage, .registerFont, .makeContentStream, .savePdf], .ok cs)

/-! ## Derived observation functions over instruction streams -/

/-- Byte-string payload of a `TJ` instruction's operand. -/
def tjOperandBytes (i : Instr) : Option (List ℕ) :=
  if i.op = "TJ" then
    match i.operands with
    | [.arr [.str bs]] => some bs
    | _ => none
  else none

/-- MCID carried by a `BDC` instruction's dictionary operand. -/
def bdcMcid (i : Instr) : Option ℕ :=
  if i.op = "BDC" then
    match i.operands with
    | [.name _, .mcidDict n] => some n
    | _ => none
  else none

/-- Operand lists of the `Tm` instructions of a stream. -/
def tmOperandLists (l : List Instr) : List (List Operand) :=
  l.filterMap (fun i => if i.op = "Tm" then some i.operands else none)

/-- Operand lists of the `Tz` instructions of a stream. -/
def tzOperandLists (l : List Instr) : List (List Operand) :=
  l.filterMap (fun i => if i.op = "Tz" then some i.operands else none)

/-- Number of instructions with a given operator. -/
def countOp (l : List Instr) (o : String) : ℕ :=
  (l.filter (fun i => i.op = o)).length

/-- The word-level guard of `generate_text_content_stream`: a word is
kept (emits a run) iff none of the three skip conditions fires. -/
def keep (ops : FloatOps) (scale : ℚ × ℚ) (height : ℚ) (w : Word) : Bool :=
  ¬(w.text = "" ∨ w.bbox.length ≠ 4) ∧
  (poly_to_quad (bbox_to_poly w.bbox)).length = 8 ∧
  ¬(w.text.length = 0 ∨ box_width ops (wordPts scale height w) ≤ 0 ∨
      font_size ops (wordPts scale height w) ≤ 0)

/-- Words of a result in emission order: blocks in block order, words in
each block's word order. -/
def allWords (r : PaddleResult) : List Word :=
  r.blocks.flatMap Block.ocr_words

/-- Instructions produced by a word list starting at a given MCID. -/
def runWords (ops : FloatOps) (scale : ℚ × ℚ) (height : ℚ) (boxes : Bool) :
    ℕ → List Word → List Instr
  | _, [] => []
  | mcid, w :: ws =>
    if keep ops scale height w then
      (wordRun ops scale height mcid w ++
        (if boxes then debugRun ops scale height w else [])) ++
      runWords ops scale height boxes (mcid + 1) ws
    else runWords ops scale height boxes mcid ws

/-! ## Well-bracketing checker -/

structure BrState where
  qDepth : ℕ
  inText : Bool
  mcDepth : ℕ
deriving DecidableEq

/-- One step of the bracket checker: `q`/`Q` must balance outside text
objects, `BT`/`ET` must not nest, and `BDC`/`EMC` must balance inside a
single `BT … ET` pair. -/
def brStep (st : BrState) (i : Instr) : Option BrState :=
  if i.op = "q" then
    if st.inText then none else some ⟨st.qDepth + 1, st.inText, st.mcDepth⟩
  else if i.op = "Q" then
    if st.inText ∨ st.qDepth = 0 then none
    else some ⟨st.qDepth - 1, st.inText, st.mcDepth⟩
  else if i.op = "BT" then
    if st.inText then none else some ⟨st.qDepth, true, st.mcDepth⟩
  else if i.op = "ET" then
    if st.inText = false ∨ st.mcDepth ≠ 0 then none
    else some ⟨st.qDepth, false, st.mcDepth⟩
  else if i.op = "BDC" then
    if st.inText = false then none
    else some ⟨st.qDepth, st.inText, st.mcDepth + 1⟩
  else if i.op = "EMC" then
    if st.inText = false ∨ st.mcDepth = 0 then none
    else some ⟨st.qDepth, st.inText, st.mcDepth - 1⟩
  else some st

def brRun (st : Option BrState) (l : List Instr) : Option BrState :=
  l.foldl (fun o i => o.bind (fun st => brStep st i)) st

/-- A stream is well-bracketed when it starts with `q`, ends with `Q`,
and the checker accepts it ending in the empty state. -/
def wellBracketed (l : List Instr) : Bool :=
  (match l.head? with | some i => i.op == "q" | none => false) &&
  (match l.getLast? with | some i => i.op == "Q" | none => false) &&
  decide (brRun (some ⟨0, false, 0⟩) l = some ⟨0, false, 0⟩)

/-- Erase the score field of every word of a result. -/
def scoreErase (r : PaddleResult) : PaddleResult :=
  ⟨r.blocks.map (fun b => ⟨b.label, b.bbox, b.content,
    b.ocr_words.map (fun w => ⟨w.text, w.bbox, 0⟩)⟩)⟩

/-- The skip conditions on a word: empty text, a bbox that is not a
4-tuple, or non-positive computed font size / run width. -/
def badWord (ops : FloatOps) (scale : ℚ × ℚ) (height : ℚ) (w : Word) : Bool :=
  w.text = "" ∨ w.bbox.length ≠ 4 ∨
  font_size ops (wordPts scale height w) ≤ 0 ∨
  box_width ops (wordPts scale height w) ≤ 0

/-- Pixel-to-point map of a single corner, as in `pt_from_pixel`. -/
def transformPt (scale : ℚ × ℚ) (height : ℚ) (p : ℚ × ℚ) : ℚ × ℚ :=
  (p.1 * scale.1, (height - p.2) * scale.2)

/-- Distance between two points as computed by the abstracted `hypot`. -/
def opsDist (ops : FloatOps) (p q : ℚ × ℚ) : ℚ :=
  ops.hypot (p.1 - q.1) (p.2 - q.2)

/-- A concrete instantiation of the abstracted math library, used to
evaluate the model at concrete inputs: it agrees with the IEEE library
functions at the points the evaluations use (`atan2(0, x) = 0` for
`x > 0`, `cos 0 = 1`, `sin 0 = 0`, and `hypot` positive off the origin,
here the taxicab norm). -/
def stdOps : FloatOps where
  atan2 := fun y x => if y = 0 ∧ 0 < x then 0 else 1
  cos := fun a => if a = 0 then 1 else 0
  sin := fun a => if a = 0 then 0 else 1
  hypot := fun dx dy => |dx| + |dy|

/-! ## Characterization of the generator -/

theorem emitWord_eq_keep (ops : FloatOps) (scale : ℚ × ℚ) (height : ℚ)
    (boxes : Bool) (mcid : ℕ) (w : Word) :
    emitWord ops scale height boxes mcid w =
      if keep ops scale height w then
        some (wordRun ops scale height mcid w ++
          (if boxes then debugRun ops scale height w else []))
      else none := by
  simp only [emitWord, keep, wordPts]
  split_ifs with h1 h2 h3 <;> simp_all

theorem tj_wordRun (ops : FloatOps) (scale : ℚ × ℚ) (height : ℚ) (mcid : ℕ)
    (w : Word) :
    (wordRun ops scale height mcid w).filterMap tjOperandBytes =
      [encodeUTF16BE w.text] := rfl

theorem tj_debugRun (ops : FloatOps) (scale : ℚ × ℚ) (height : ℚ) (w : Word) :
    (debugRun ops scale height w).filterMap tjOperandBytes = [] := rfl

theorem bdc_wordRun (ops : FloatOps) (scale : ℚ × ℚ) (height : ℚ) (mcid : ℕ)
    (w : Word) :
    (wordRun ops scale height mcid w).filterMap bdcMcid = [mcid] := rfl

theorem bdc_debugRun (ops : FloatOps) (scale : ℚ × ℚ) (height : ℚ) (w : Word) :
    (debugRun ops scale height w).filterMap bdcMcid = [] := rfl

theorem countBT_wordRun (ops : FloatOps) (scale : ℚ × ℚ) (height : ℚ)
    (mcid : ℕ) (w : Word) :
    countOp (wordRun ops scale height mcid w) "BT" = 1 := rfl

theorem countBT_debugRun (ops : FloatOps) (scale : ℚ × ℚ) (height : ℚ)
    (w : Word) :
    countOp (debugRun ops scale height w) "BT" = 0 := rfl

theorem foldl_processWord (ops : FloatOps) (scale : ℚ × ℚ) (height : ℚ)
    (boxes : Bool) (ws : List Word) :
    ∀ (cs : List Instr) (mcid : ℕ),
      ws.foldl (processWord ops scale height boxes) (cs, mcid) =
        (cs ++ runWords ops scale height boxes mcid ws,
         mcid + (ws.filter (fun w => keep ops scale height w)).length) := by
  induction ws with
  | nil => intro cs mcid; simp [runWords]
  | cons w ws ih =>
    intro cs mcid
    simp only [List.foldl_cons, processWord, emitWord_eq_keep]
    by_cases hk : keep ops scale height w
    · simp only [hk, if_true, ih, runWords, List.filter_cons_of_pos,
        List.length_cons]
      refine Prod.ext ?_ ?_
      · simp [List.append_assoc]
      · simp; omega
    · simp only [hk, if_false, Bool.false_eq_true, ih, runWords]
      simp [hk, List.filter_cons_of_neg]

theorem runWords_append (ops : FloatOps) (scale : ℚ × ℚ) (height : ℚ)
    (boxes : Bool) (xs ys : List Word) :
    ∀ mcid : ℕ,
      runWords ops scale height boxes mcid (xs ++ ys) =
        runWords ops scale height boxes mcid xs ++
          runWords ops scale height boxes
            (mcid + (xs.filter (fun w => keep ops scale height w)).length) ys := by
  induction xs with
  | nil => intro mcid; simp [runWords]
  | cons x xs ih =>
    intro mcid
    by_cases hk : keep ops scale height x
    · have hn : mcid +
          (List.filter (fun w => keep ops scale height w) (x :: xs)).length =
          mcid + 1 +
            (List.filter (fun w => keep ops scale height w) xs).length := by
        simp [hk]; omega
      rw [hn]
      simp only [List.cons_append, runWords, hk, if_true, List.append_eq, ih,
        List.append_assoc]
    · simp only [List.cons_append, runWords, hk, if_false, Bool.false_eq_true,
      List.filter_cons_of_neg, ite_false]
      have hf : List.filter (fun w => keep ops scale height w) (x :: xs) =
          List.filter (fun w => keep ops scale height w) xs := by
        simp [hk]
      rw [hf]
      exact ih mcid

theorem foldl_processBlock (ops : FloatOps) (scale : ℚ × ℚ) (height : ℚ)
    (boxes : Bool) (bs : List Block) :
    ∀ (cs : List Instr) (mcid : ℕ),
      bs.foldl (processBlock ops scale height boxes) (cs, mcid) =
        (cs ++ runWords ops scale height boxes mcid (bs.flatMap Block.ocr_words),
         mcid + ((bs.flatMap Block.ocr_words).filter
            (fun w => keep ops scale height w)).length) := by
  induction bs with
  | nil => intro cs mcid; simp [runWords]
  | cons b bs ih =>
    intro cs mcid
    simp only [List.foldl_cons, processBlock]
    rw [foldl_processWord, ih]
    refine Prod.ext ?_ ?_
    · simp [List.flatMap_cons, runWords_append, List.append_assoc]
    · simp [List.flatMap_cons, List.filter_append]; omega

theorem tj_optDebug (ops : FloatOps) (scale : ℚ × ℚ) (height : ℚ)
    (boxes : Bool) (w : Word) :
    (if boxes = true then debugRun ops scale height w else []).filterMap
      tjOperandBytes = [] := by
  cases boxes <;> simp [tj_debugRun]

theorem bdc_optDebug (ops : FloatOps) (scale : ℚ × ℚ) (height : ℚ)
    (boxes : Bool) (w : Word) :
    (if boxes = true then debugRun ops scale height w else []).filterMap
      bdcMcid = [] := by
  cases boxes <;> simp [bdc_debugRun]

theorem countBT_optDebug (ops : FloatOps) (scale : ℚ × ℚ) (height : ℚ)
    (boxes : Bool) (w : Word) :
    countOp (if boxes = true then debugRun ops scale height w else []) "BT"
      = 0 := by
  cases boxes <;> simp [countOp, debugRun, CS.q, CS.cm, CS.re, CS.RG, CS.s,
    CS.Q]

theorem countOp_append (l1 l2 : List Instr) (o : String) :
    countOp (l1 ++ l2) o = countOp l1 o + countOp l2 o := by
  simp [countOp, List.filter_append]

theorem tj_runWords (ops : FloatOps) (scale : ℚ × ℚ) (height : ℚ)
    (boxes : Bool) (ws : List Word) :
    ∀ mcid : ℕ,
      (runWords ops scale height boxes mcid ws).filterMap tjOperandBytes =
        (ws.filter (fun w => keep ops scale height w)).map
          (fun w => encodeUTF16BE w.text) := by
  induction ws with
  | nil => intro mcid; simp [runWords]
  | cons w ws ih =>
    intro mcid
    by_cases hk : keep ops scale height w
    · simp [runWords, hk, List.filterMap_append, tj_wordRun, tj_optDebug, ih]
    · simp [runWords, hk, ih]

theorem bdc_runWords (ops : FloatOps) (scale : ℚ × ℚ) (height : ℚ)
    (boxes : Bool) (ws : List Word) :
    ∀ mcid : ℕ,
      (runWords ops scale height boxes mcid ws).filterMap bdcMcid =
        List.range' mcid
          (ws.filter (fun w => keep ops scale height w)).length := by
  induction ws with
  | nil => intro mcid; simp [runWords]
  | cons w ws ih =>
    intro mcid
    by_cases hk : keep ops scale height w
    · simp [runWords, hk, List.filterMap_append, bdc_wordRun, bdc_optDebug,
        ih, List.range'_succ]
    · simp [runWords, hk, ih]

theorem countBT_runWords (ops : FloatOps) (scale : ℚ × ℚ) (height : ℚ)
    (boxes : Bool) (ws : List Word) :
    ∀ mcid : ℕ,
      countOp (runWords ops scale height boxes mcid ws) "BT" =
        (ws.filter (fun w => keep ops scale height w)).length := by
  induction ws with
  | nil => intro mcid; simp [runWords, countOp]
  | cons w ws ih =>
    intro mcid
    by_cases hk : keep ops scale height w
    · simp [runWords, hk, countOp_append, countBT_wordRun, countBT_optDebug,
        ih]
      omega
    · simp [runWords, hk, ih]

theorem gen_eq (ops : FloatOps) (scale : ℚ × ℚ) (height : ℚ) (boxes : Bool)
    (r : PaddleResult) :
    generate_text_content_stream ops (some r) scale height boxes =
      (CS.q :: runWords ops scale height boxes 0 (allWords r)) ++ [CS.Q] := by
  simp only [generate_text_content_stream]
  by_cases hb : r.blocks = []
  · simp [hb, allWords, runWords]
  · rw [if_neg hb, foldl_processBlock]
    simp [allWords]

/-! ## UTF-16BE round-trip -/

theorem char_valid_nat (c : Char) :
    c.toNat < 0xD800 ∨ (0xDFFF < c.toNat ∧ c.toNat < 0x110000) := c.valid

theorem utf16Units_lt (c : Char) : ∀ u ∈ utf16UnitsOfChar c, u < 0x10000 := by
  intro u hu
  have hv := char_valid_nat c
  simp only [utf16UnitsOfChar] at hu
  by_cases hlt : c.toNat < 0x10000
  · rw [if_pos hlt] at hu
    simp at hu
    omega
  · rw [if_neg hlt] at hu
    simp at hu
    have hdiv : (c.toNat - 0x10000) / 0x400 < 0x400 := by
      apply Nat.div_lt_of_lt_mul; omega
    have hmod : (c.toNat - 0x10000) % 0x400 < 0x400 :=
      Nat.mod_lt _ (by omega)
    rcases hu with h | h <;> omega

theorem bytesToUnits_flatMap (us : List ℕ) (h : ∀ u ∈ us, u < 0x10000) :
    bytesToUnits (us.flatMap unitBytes) = us := by
  induction us with
  | nil => rfl
  | cons u rest ih =>
    have hu : u < 0x10000 := h u (by simp)
    have hrest : ∀ v ∈ rest, v < 0x10000 :=
      fun v hv => h v (List.mem_cons_of_mem _ hv)
    have hsh : (u :: rest).flatMap unitBytes =
        u / 256 :: u % 256 :: rest.flatMap unitBytes := by
      simp [unitBytes]
    rw [hsh]
    simp only [bytesToUnits]
    rw [ih hrest]
    have hdm : u / 256 * 256 + u % 256 = u := by omega
    rw [hdm]

theorem unitsToChars_cons_plain (u : ℕ) (rest : List ℕ)
    (h : ¬(0xD800 ≤ u ∧ u < 0xDC00)) :
    unitsToChars (u :: rest) = Char.ofNat u :: unitsToChars rest := by
  cases rest with
  | nil => simp [unitsToChars, h]
  | cons lo rest2 => simp [unitsToChars, h]

theorem unitsToChars_cons_pair (u lo : ℕ) (rest : List ℕ)
    (h : 0xD800 ≤ u ∧ u < 0xDC00) :
    unitsToChars (u :: lo :: rest) =
      Char.ofNat ((u - 0xD800) * 0x400 + (lo - 0xDC00) + 0x10000)
        :: unitsToChars rest := by
  simp [unitsToChars, h]

theorem unitsToChars_units_append (c : Char) (rest : List ℕ) :
    unitsToChars (utf16UnitsOfChar c ++ rest) = c :: unitsToChars rest := by
  have hv := char_valid_nat c
  by_cases hlt : c.toNat < 0x10000
  · have hns : ¬(0xD800 ≤ c.toNat ∧ c.toNat < 0xDC00) := by omega
    rw [utf16UnitsOfChar, if_pos hlt, List.cons_append, List.nil_append,
      unitsToChars_cons_plain _ _ hns, Char.ofNat_toNat]
  · have hdiv : (c.toNat - 0x10000) / 0x400 < 0x400 := by
      apply Nat.div_lt_of_lt_mul; omega
    have hhs : 0xD800 ≤ 0xD800 + (c.toNat - 0x10000) / 0x400 ∧
        0xD800 + (c.toNat - 0x10000) / 0x400 < 0xDC00 := by omega
    rw [utf16UnitsOfChar, if_neg hlt]
    simp only [List.cons_append, List.nil_append]
    rw [unitsToChars_cons_pair _ _ _ hhs]
    have harith : (0xD800 + (c.toNat - 0x10000) / 0x400 - 0xD800) * 0x400 +
        (0xDC00 + (c.toNat - 0x10000) % 0x400 - 0xDC00) + 0x10000 =
        c.toNat := by
      have := Nat.div_add_mod (c.toNat - 0x10000) 0x400
      omega
    rw [harith, Char.ofNat_toNat]

theorem unitsToChars_flatMap (cs : List Char) :
    unitsToChars (cs.flatMap utf16UnitsOfChar) = cs := by
  induction cs with
  | nil => rfl
  | cons c rest ih =>
    rw [List.flatMap_cons, unitsToChars_units_append, ih]

theorem decode_encode (s : String) : decodeUTF16BE (encodeUTF16BE s) = s := by
  have hlt : ∀ u ∈ s.data.flatMap utf16UnitsOfChar, u < 0x10000 := by
    intro u hu
    rw [List.mem_flatMap] at hu
    obtain ⟨c, _, hc⟩ := hu
    exact utf16Units_lt c u hc
  simp only [decodeUTF16BE, encodeUTF16BE, bytesToUnits_flatMap _ hlt,
    unitsToChars_flatMap]

/-! ## Bracket checker facts -/

theorem brRun_append (st : Option BrState) (l1 l2 : List Instr) :
    brRun st (l1 ++ l2) = brRun (brRun st l1) l2 := by
  simp [brRun, List.foldl_append]

theorem brRun_wordRun (ops : FloatOps) (scale : ℚ × ℚ) (height : ℚ)
    (mcid : ℕ) (w : Word) (n : ℕ) :
    brRun (some ⟨n, false, 0⟩) (wordRun ops scale height mcid w) =
      some ⟨n, false, 0⟩ := rfl

theorem brRun_debugRun (ops : FloatOps) (scale : ℚ × ℚ) (height : ℚ)
    (w : Word) (n : ℕ) :
    brRun (some ⟨n, false, 0⟩) (debugRun ops scale height w) =
      some ⟨n, false, 0⟩ := rfl

theorem brRun_runWords (ops : FloatOps) (scale : ℚ × ℚ) (height : ℚ)
    (boxes : Bool) (ws : List Word) :
    ∀ (mcid n : ℕ),
      brRun (some ⟨n, false, 0⟩) (runWords ops scale height boxes mcid ws) =
        some ⟨n, false, 0⟩ := by
  induction ws with
  | nil => intro mcid n; rfl
  | cons w ws ih =>
    intro mcid n
    by_cases hk : keep ops scale height w
    · simp only [runWords, hk, if_true, List.append_assoc, brRun_append,
        brRun_wordRun]
      cases boxes
      · simp only [Bool.false_eq_true, if_false]
        rw [show brRun (some ⟨n, false, 0⟩) ([] : List Instr) =
          some ⟨n, false, 0⟩ from rfl]
        exact ih _ n
      · simp only [if_true]
        rw [brRun_debugRun]
        exact ih _ n
    · simp only [runWords, hk, Bool.false_eq_true, if_false]
      exact ih mcid n

theorem tjOperandBytes_q : tjOperandBytes CS.q = none := rfl

theorem tjOperandBytes_Q : tjOperandBytes CS.Q = none := rfl

theorem bdcMcid_q : bdcMcid CS.q = none := rfl

theorem bdcMcid_Q : bdcMcid CS.Q = none := rfl

theorem countOp_cons_ne (i : Instr) (l : List Instr) (o : String)
    (h : ¬(i.op = o)) : countOp (i :: l) o = countOp l o := by
  simp [countOp, List.filter_cons, h]

theorem badWord_not_keep (ops : FloatOps) (scale : ℚ × ℚ) (height : ℚ)
    (w : Word) (h : badWord ops scale height w = true) :
    keep ops scale height w = false := by
  simp only [badWord, decide_eq_true_eq] at h
  simp only [keep, decide_eq_false_iff_not]
  intro hkeep
  obtain ⟨h1, _, h3⟩ := hkeep
  rcases h with h | h | h | h
  · exact h1 (Or.inl h)
  · exact h1 (Or.inr h)
  · exact h3 (Or.inr (Or.inr h))
  · exact h3 (Or.inr (Or.inl h))

/-! ## Claim theorems -/

/-- C1: the `TJ` operands emitted by `generate_text_content_stream` are
exactly the UTF-16BE encodings of the non-skipped words' texts in
emission order (blocks in block order, words in each block's word
order), and decoding every `TJ` operand as UTF-16BE and concatenating
them in emission order reconstructs exactly the concatenation of the
non-skipped words' text fields, with no separator characters between
runs. -/
theorem C1_tj_utf16_transcript (ops : FloatOps) (r : PaddleResult)
    (scale : ℚ × ℚ) (height : ℚ) (boxes : Bool) :
    (generate_text_content_stream ops (some r) scale height boxes).filterMap
        tjOperandBytes =
      ((allWords r).filter (fun w => keep ops scale height w)).map
        (fun w => encodeUTF16BE w.text) ∧
    String.join
        (((generate_text_content_stream ops (some r) scale height
            boxes).filterMap tjOperandBytes).map decodeUTF16BE) =
      String.join
        (((allWords r).filter (fun w => keep ops scale height w)).map
          Word.text) := by
  have h1 : (generate_text_content_stream ops (some r) scale height
      boxes).filterMap tjOperandBytes =
      ((allWords r).filter (fun w => keep ops scale height w)).map
        (fun w => encodeUTF16BE w.text) := by
    rw [gen_eq]
    simp [List.filterMap_cons, List.filterMap_append, tjOperandBytes_q,
      tjOperandBytes_Q, tj_runWords]
  refine ⟨h1, ?_⟩
  rw [h1, List.map_map]
  congr 1
  apply List.map_congr_left
  intro w _
  exact decode_encode w.text

/-- C2: a word with empty text, a bbox whose length is not 4, or
non-positive computed font size or run width is never emitted and does
not advance the marked-content counter; and every emitted run carries a
`BDC` with an MCID, the MCIDs being exactly 0, 1, 2, … in emission
order (one `BT…ET` run per MCID). -/
theorem C2_skip_invariant_and_mcids (ops : FloatOps) (scale : ℚ × ℚ)
    (height : ℚ) (boxes : Bool) (r : PaddleResult) (w : Word)
    (cs : List Instr) (mcid : ℕ) :
    (badWord ops scale height w = true →
      emitWord ops scale height boxes mcid w = none ∧
      processWord ops scale height boxes (cs, mcid) w = (cs, mcid)) ∧
    (generate_text_content_stream ops (some r) scale height boxes).filterMap
        bdcMcid =
      List.range
        ((allWords r).filter (fun w => keep ops scale height w)).length ∧
    countOp (generate_text_content_stream ops (some r) scale height boxes)
        "BT" =
      ((allWords r).filter (fun w => keep ops scale height w)).length := by
  refine ⟨?_, ?_, ?_⟩
  · intro hbad
    have hk := badWord_not_keep ops scale height w hbad
    have he : emitWord ops scale height boxes mcid w = none := by
      rw [emitWord_eq_keep, hk]
      simp
    exact ⟨he, by simp [processWord, he]⟩
  · rw [gen_eq]
    simp [List.filterMap_cons, List.filterMap_append, bdcMcid_q, bdcMcid_Q,
      bdc_runWords, List.range_eq_range']
  · rw [gen_eq, List.cons_append,
      countOp_cons_ne _ _ _ (by decide : ¬(CS.q.op = "BT")), countOp_append,
      countBT_runWords]
    rfl

/-- C2 witness: an empty-text word is skipped without advancing the
counter, and a concrete one-word result gets MCID sequence
`range 1 = [0]`. -/
theorem C2_skip_invariant_and_mcids_witness :
    (emitWord stdOps (1, 1) 1 false 0 ⟨"", [0, 0, 1, 1], 1⟩ = none ∧
     processWord stdOps (1, 1) 1 false ([CS.q], 0) ⟨"", [0, 0, 1, 1], 1⟩ =
       ([CS.q], 0)) ∧
    (generate_text_content_stream stdOps
        (some ⟨[⟨"t", [0, 0, 1, 1], "", [⟨"Hi", [0, 0, 1, 1], 9 / 10⟩]⟩]⟩)
        (1, 1) 1 false).filterMap bdcMcid =
      List.range
        ((allWords ⟨[⟨"t", [0, 0, 1, 1], "", [⟨"Hi", [0, 0, 1, 1],
            9 / 10⟩]⟩]⟩).filter (fun w => keep stdOps (1, 1) 1 w)).length ∧
    countOp
        (generate_text_content_stream stdOps
          (some ⟨[⟨"t", [0, 0, 1, 1], "", [⟨"Hi", [0, 0, 1, 1], 9 / 10⟩]⟩]⟩)
          (1, 1) 1 false) "BT" =
      ((allWords ⟨[⟨"t", [0, 0, 1, 1], "", [⟨"Hi", [0, 0, 1, 1],
          9 / 10⟩]⟩]⟩).filter (fun w => keep stdOps (1, 1) 1 w)).length := by
  have h := C2_skip_invariant_and_mcids stdOps (1, 1) 1 false
    ⟨[⟨"t", [0, 0, 1, 1], "", [⟨"Hi", [0, 0, 1, 1], 9 / 10⟩]⟩]⟩
    ⟨"", [0, 0, 1, 1], 1⟩ [CS.q] 0
  exact ⟨h.1 rfl, h.2.1, h.2.2⟩

/-- C6: a missing OCR result, or one whose normalized block list is
empty, yields exactly the sequence `[q, Q]`: no `BT` instruction and a
single bracketing `q`/`Q` pair, instead of a failure. -/
theorem C6_blank_page (ops : FloatOps) (scale : ℚ × ℚ) (height : ℚ)
    (boxes : Bool) (ocr_result : Option PaddleResult)
    (h : ∀ r ∈ ocr_result, r.blocks = []) :
    generate_text_content_stream ops ocr_result scale height boxes =
      [CS.q, CS.Q] ∧
    countOp (generate_text_content_stream ops ocr_result scale height boxes)
      "BT" = 0 := by
  have h1 : generate_text_content_stream ops ocr_result scale height boxes =
      [CS.q, CS.Q] := by
    cases ocr_result with
    | none => rfl
    | some r =>
      have hb : r.blocks = [] := h r rfl
      simp [generate_text_content_stream, hb]
  exact ⟨h1, by rw [h1]; rfl⟩

/-- C6 witness at a concrete input: a missing (`None`) OCR result. -/
theorem C6_blank_page_witness :
    generate_text_content_stream stdOps none (1, 1) 1 false =
      [CS.q, CS.Q] ∧
    countOp (generate_text_content_stream stdOps none (1, 1) 1 false) "BT"
      = 0 :=
  C6_blank_page stdOps (1, 1) 1 false none (by simp)

/-- C9: every stream produced by `generate_text_content_stream` is
well-bracketed: it starts with `q` and ends with `Q`, `q`/`Q` balance
and nest properly, `BT…ET` pairs never nest, and each `BDC` is closed
by an `EMC` inside its own `BT…ET` pair. -/
theorem C9_well_bracketed (ops : FloatOps) (ocr_result : Option PaddleResult)
    (scale : ℚ × ℚ) (height : ℚ) (boxes : Bool) :
    wellBracketed
      (generate_text_content_stream ops ocr_result scale height boxes)
      = true := by
  cases ocr_result with
  | none => rfl
  | some r =>
    rw [gen_eq]
    simp only [wellBracketed]
    rw [Bool.and_eq_true, Bool.and_eq_true]
    refine ⟨⟨rfl, ?_⟩, ?_⟩
    · rw [List.getLast?_concat]
      rfl
    · rw [decide_eq_true_eq, brRun_append]
      have hq : brRun (some ⟨0, false, 0⟩)
          (CS.q :: runWords ops scale height boxes 0 (allWords r)) =
          brRun (some ⟨1, false, 0⟩)
            (runWords ops scale height boxes 0 (allWords r)) := rfl
      rw [hq, brRun_runWords]
      rfl

/-- Score invariance at the level of word lists. -/
theorem runWords_scoreErase (ops : FloatOps) (scale : ℚ × ℚ) (height : ℚ)
    (boxes : Bool) (ws : List Word) :
    ∀ mcid : ℕ,
      runWords ops scale height boxes mcid
          (ws.map (fun w => ⟨w.text, w.bbox, 0⟩)) =
        runWords ops scale height boxes mcid ws := by
  induction ws with
  | nil => intro mcid; rfl
  | cons w ws ih =>
    intro mcid
    obtain ⟨t, bb, sc⟩ := w
    have hk : keep ops scale height ⟨t, bb, (0 : ℚ)⟩ =
        keep ops scale height ⟨t, bb, sc⟩ := rfl
    by_cases h : keep ops scale height ⟨t, bb, sc⟩
    · simp only [List.map_cons, runWords, hk, h, if_true, ih]
      rfl
    · simp only [List.map_cons, runWords, hk, h, Bool.false_eq_true, if_false]
      exact ih mcid

theorem allWords_scoreErase (r : PaddleResult) :
    allWords (scoreErase r) =
      (allWords r).map (fun w => ⟨w.text, w.bbox, 0⟩) := by
  simp [allWords, scoreErase, List.flatMap_map, List.map_flatMap,
    Function.comp]

theorem gen_scoreErase (ops : FloatOps) (scale : ℚ × ℚ) (height : ℚ)
    (boxes : Bool) (r : PaddleResult) :
    generate_text_content_stream ops (some (scoreErase r)) scale height
        boxes =
      generate_text_content_stream ops (some r) scale height boxes := by
  rw [gen_eq, gen_eq, allWords_scoreErase, runWords_scoreErase]

/-- C10: confidence scores never influence the output — two OCR results
identical except for their words' score fields produce identical
instruction sequences; in particular a word is emitted no matter how
low its score is. -/
theorem C10_score_never_influences (ops : FloatOps) (scale : ℚ × ℚ)
    (height : ℚ) (boxes : Bool) (r1 r2 : PaddleResult)
    (h : scoreErase r1 = scoreErase r2) :
    generate_text_content_stream ops (some r1) scale height boxes =
      generate_text_content_stream ops (some r2) scale height boxes := by
  rw [← gen_scoreErase ops scale height boxes r1, h, gen_scoreErase]

/-- C10 witness: two one-word results differing only in the word's
score (0.9 versus 0.1) produce the same stream. -/
theorem C10_score_never_influences_witness :
    generate_text_content_stream stdOps
        (some ⟨[⟨"t", [0, 0, 1, 1], "", [⟨"Hi", [0, 0, 1, 1], 9 / 10⟩]⟩]⟩)
        (1, 1) 1 false =
      generate_text_content_stream stdOps
        (some ⟨[⟨"t", [0, 0, 1, 1], "", [⟨"Hi", [0, 0, 1, 1], 1 / 10⟩]⟩]⟩)
        (1, 1) 1 false :=
  C10_score_never_influences stdOps (1, 1) 1 false _ _ rfl

theorem tm_wordRun (ops : FloatOps) (scale : ℚ × ℚ) (height : ℚ) (mcid : ℕ)
    (w : Word) :
    tmOperandLists (wordRun ops scale height mcid w) =
      [[.num (ops.cos (snapAngle (rawAngle ops (wordPts scale height w)))),
        .num (-(ops.sin (snapAngle (rawAngle ops (wordPts scale height w))))),
        .num (ops.sin (snapAngle (rawAngle ops (wordPts scale height w)))),
        .num (ops.cos (snapAngle (rawAngle ops (wordPts scale height w)))),
        .num ((wordPts scale height w).getD 6 0),
        .num ((wordPts scale height w).getD 7 0)]] := rfl

theorem tm_optDebug (ops : FloatOps) (scale : ℚ × ℚ) (height : ℚ)
    (boxes : Bool) (w : Word) :
    tmOperandLists (if boxes = true then debugRun ops scale height w else [])
      = [] := by
  cases boxes
  · rfl
  · rfl

theorem tz_wordRun (ops : FloatOps) (scale : ℚ × ℚ) (height : ℚ) (mcid : ℕ)
    (w : Word) :
    tzOperandLists (wordRun ops scale height mcid w) =
      [[.num (h_stretch ops (wordPts scale height w) w.text)]] := rfl

theorem tz_optDebug (ops : FloatOps) (scale : ℚ × ℚ) (height : ℚ)
    (boxes : Bool) (w : Word) :
    tzOperandLists (if boxes = true then debugRun ops scale height w else [])
      = [] := by
  cases boxes
  · rfl
  · rfl

theorem tmOperandLists_append (l1 l2 : List Instr) :
    tmOperandLists (l1 ++ l2) = tmOperandLists l1 ++ tmOperandLists l2 := by
  simp [tmOperandLists, List.filterMap_append]

theorem tzOperandLists_append (l1 l2 : List Instr) :
    tzOperandLists (l1 ++ l2) = tzOperandLists l1 ++ tzOperandLists l2 := by
  simp [tzOperandLists, List.filterMap_append]

/-- Inversion of a successful `emitWord`. -/
theorem emitWord_some (ops : FloatOps) (scale : ℚ × ℚ) (height : ℚ)
    (boxes : Bool) (mcid : ℕ) (w : Word) (l : List Instr)
    (he : emitWord ops scale height boxes mcid w = some l) :
    l = wordRun ops scale height mcid w ++
      (if boxes = true then debugRun ops scale height w else []) := by
  rw [emitWord_eq_keep] at he
  by_cases hk : keep ops scale height w
  · rw [if_pos hk] at he
    exact (Option.some_inj.mp he).symm
  · rw [if_neg hk] at he
    exact absurd he (by simp)

/-- C4: a word whose raw rotation angle is within 0.01 radians of zero
is snapped to exactly zero, so the emitted run's `Tm` rotation part is
exactly `(1, 0, 0, 1)` — hypotheses `cos 0 = 1` and `sin 0 = 0` state
the (exact) behaviour of the IEEE math library at zero. -/
theorem C4_angle_snap (ops : FloatOps) (scale : ℚ × ℚ) (height : ℚ)
    (boxes : Bool) (mcid : ℕ) (w : Word) (l : List Instr)
    (hc : ops.cos 0 = 1) (hs : ops.sin 0 = 0)
    (ha : |rawAngle ops (wordPts scale height w)| < ANGLE_THRESHOLD_RAD)
    (he : emitWord ops scale height boxes mcid w = some l) :
    tmOperandLists l =
      [[.num 1, .num 0, .num 0, .num 1,
        .num ((wordPts scale height w).getD 6 0),
        .num ((wordPts scale height w).getD 7 0)]] := by
  rw [emitWord_some ops scale height boxes mcid w l he,
    tmOperandLists_append, tm_wordRun, tm_optDebug]
  rw [show snapAngle (rawAngle ops (wordPts scale height w)) = 0 from
    if_pos ha]
  rw [hc, hs]
  simp

/-- The transformed point list of a word with a 4-element bbox. -/
theorem wordPts_bbox (scale : ℚ × ℚ) (height : ℚ) (w : Word)
    (x1 y1 x2 y2 : ℚ) (hb : w.bbox = [x1, y1, x2, y2]) :
    wordPts scale height w =
      [x1 * scale.1, (height - y1) * scale.2,
       x2 * scale.1, (height - y1) * scale.2,
       x2 * scale.1, (height - y2) * scale.2,
       x1 * scale.1, (height - y2) * scale.2] := by
  simp [wordPts, hb, bbox_to_poly, poly_to_quad, pt_from_pixel, toPairs]

/-- Concrete evaluation: the transformed points of the witness word. -/
theorem w0_pts :
    wordPts (1, 1) 1 ⟨"Hi", [0, 0, 1, 1], 9 / 10⟩ =
      [0, 1, 1, 1, 1, 0, 0, 0] := by
  rw [wordPts_bbox (1, 1) 1 _ 0 0 1 1 rfl]
  norm_num

/-- Concrete evaluation: the witness word passes every guard. -/
theorem w0_keep : keep stdOps (1, 1) 1 ⟨"Hi", [0, 0, 1, 1], 9 / 10⟩ = true := by
  simp only [keep, w0_pts, decide_eq_true_eq]
  refine ⟨by decide, by decide, ?_⟩
  simp only [box_width, font_size, space_width, stdOps]
  norm_num
  decide

/-- Concrete evaluation: the run emitted for the witness word. -/
theorem w0_emit :
    emitWord stdOps (1, 1) 1 false 0 ⟨"Hi", [0, 0, 1, 1], 9 / 10⟩ =
      some (wordRun stdOps (1, 1) 1 0 ⟨"Hi", [0, 0, 1, 1], 9 / 10⟩ ++ []) := by
  rw [emitWord_eq_keep, w0_keep]
  simp

/-- Concrete evaluation: the witness word is horizontal. -/
theorem w0_angle :
    |rawAngle stdOps (wordPts (1, 1) 1 ⟨"Hi", [0, 0, 1, 1], 9 / 10⟩)| <
      ANGLE_THRESHOLD_RAD := by
  rw [w0_pts]
  norm_num [rawAngle, stdOps, ANGLE_THRESHOLD_RAD]

/-- C4 witness: a perfectly horizontal word ([0,0,1,1] at unit scale). -/
theorem C4_angle_snap_witness :
    |rawAngle stdOps (wordPts (1, 1) 1 ⟨"Hi", [0, 0, 1, 1], 9 / 10⟩)| <
      ANGLE_THRESHOLD_RAD ∧
    tmOperandLists
        (wordRun stdOps (1, 1) 1 0 ⟨"Hi", [0, 0, 1, 1], 9 / 10⟩ ++ []) =
      [[.num 1, .num 0, .num 0, .num 1,
        .num ((wordPts (1, 1) 1 ⟨"Hi", [0, 0, 1, 1], 9 / 10⟩).getD 6 0),
        .num ((wordPts (1, 1) 1 ⟨"Hi", [0, 0, 1, 1], 9 / 10⟩).getD 7 0)]] :=
  ⟨w0_angle,
   C4_angle_snap stdOps (1, 1) 1 false 0 _ _ (by norm_num [stdOps])
     (by norm_num [stdOps]) w0_angle w0_emit⟩

/-- C5: the `Tz` operand of every emitted run equals
`100 * run_width / character_count / font_size * 2`, with
`character_count` the length of the word's text, `run_width` the
hypot-distance between the transformed bottom-right and bottom-left
corners, and `font_size` the hypot-distance between the transformed
top-left and bottom-left corners. -/
theorem C5_stretch_formula (ops : FloatOps) (scale : ℚ × ℚ) (height : ℚ)
    (boxes : Bool) (mcid : ℕ) (w : Word) (l : List Instr) (x1 y1 x2 y2 : ℚ)
    (hb : w.bbox = [x1, y1, x2, y2])
    (he : emitWord ops scale height boxes mcid w = some l) :
    tzOperandLists l =
      [[.num (100 *
          opsDist ops (transformPt scale height (x2, y2))
            (transformPt scale height (x1, y2)) /
          (w.text.length : ℚ) /
          opsDist ops (transformPt scale height (x1, y1))
            (transformPt scale height (x1, y2)) * 2)]] := by
  rw [emitWord_some ops scale height boxes mcid w l he,
    tzOperandLists_append, tz_wordRun, tz_optDebug,
    wordPts_bbox scale height w x1 y1 x2 y2 hb]
  simp [h_stretch, font_size, box_width, space_width, opsDist, transformPt,
    HORIZONTAL_SCALE_FACTOR, CHAR_ASPECT]

/-- C5 witness: the concrete word "Hi" with bbox [0,0,1,1]. -/
theorem C5_stretch_formula_witness :
    tzOperandLists
        (wordRun stdOps (1, 1) 1 0 ⟨"Hi", [0, 0, 1, 1], 9 / 10⟩ ++ []) =
      [[.num (100 *
          opsDist stdOps (transformPt (1, 1) 1 (1, 1))
            (transformPt (1, 1) 1 (0, 1)) /
          ((("Hi" : String).length : ℚ)) /
          opsDist stdOps (transformPt (1, 1) 1 (0, 0))
            (transformPt (1, 1) 1 (0, 1)) * 2)]] :=
  C5_stretch_formula stdOps (1, 1) 1 false 0 ⟨"Hi", [0, 0, 1, 1], 9 / 10⟩ _
    0 0 1 1 rfl w0_emit

/-- Bytes of the repeated two-byte table: even offsets hold 0, odd
offsets hold 1. -/
theorem replicate01_getD (n : ℕ) :
    ∀ k : ℕ, k < 2 * n →
      ((List.replicate n ([0, 1] : List ℕ)).flatten).getD k 0 =
        if k % 2 = 0 then 0 else 1 := by
  induction n with
  | zero => intro k hk; omega
  | succ m ih =>
    intro k hk
    rw [List.replicate_succ, List.flatten_cons]
    simp only [List.cons_append, List.nil_append]
    rcases k with _ | (_ | j)
    · simp
    · simp
    · rw [List.getD_cons_succ, List.getD_cons_succ, ih j (by omega)]
      have h2 : (j + 1 + 1) % 2 = j % 2 := by omega
      rw [h2]

/-- C3 counterexample: the CID-to-glyph table built by
`register_glyphlessfont` sends CID 2 to glyph 1, not to glyph 2, so it
is not the identity map. -/
theorem C3_counterexample : gidOfCid 2 = 1 ∧ gidOfCid 2 ≠ 2 := by
  have e4 : cid_to_gid_map.getD 4 0 = 0 := by
    rw [cid_to_gid_map, replicate01_getD 65536 4 (by norm_num)]
    norm_num
  have e5 : cid_to_gid_map.getD 5 0 = 1 := by
    rw [cid_to_gid_map, replicate01_getD 65536 5 (by norm_num)]
    norm_num
  have h : gidOfCid 2 = 1 := by
    unfold gidOfCid
    rw [show 2 * 2 = 4 from rfl, show 2 * 2 + 1 = 5 from rfl, e4, e5]
  exact ⟨h, by rw [h]; norm_num⟩

/-- C3 amended: the CIDToGIDMap stream is a raw byte table of 65536
two-byte entries, but it is the constant map sending every CID of the
16-bit space to glyph 1 (the single glyph of the glyphless font), not
the identity CID-to-glyph map. -/
theorem C3_constant_glyph_map :
    cid_to_gid_map.length = 2 * 65536 ∧
    ∀ c : ℕ, c < 65536 → gidOfCid c = 1 := by
  constructor
  · rw [cid_to_gid_map, List.length_flatten, List.map_replicate,
      List.sum_const_nat]
    norm_num
  · intro c hc
    have e1 : cid_to_gid_map.getD (2 * c) 0 = 0 := by
      rw [cid_to_gid_map, replicate01_getD 65536 (2 * c) (by omega)]
      simp [Nat.mul_mod_right]
    have e2 : cid_to_gid_map.getD (2 * c + 1) 0 = 1 := by
      rw [cid_to_gid_map, replicate01_getD 65536 (2 * c + 1) (by omega)]
      have h1 : (2 * c + 1) % 2 = 1 := by omega
      rw [h1]
      norm_num
    unfold gidOfCid
    rw [e1, e2]

/-- C3 amended-claim witness at CID 7. -/
theorem C3_constant_glyph_map_witness :
    cid_to_gid_map.length = 2 * 65536 ∧ gidOfCid 7 = 1 :=
  ⟨C3_constant_glyph_map.1, C3_constant_glyph_map.2 7 (by norm_num)⟩

/-- C7: mapping a bbox through `bbox_to_poly`, `poly_to_quad` and
`pt_from_pixel` and inverse-mapping the quad corners p1 (positions
0-1), p2 (positions 4-5) and p4 (positions 6-7) through `x / scale_x`,
`height - y / scale_y` recovers the original bbox corners exactly over
exact arithmetic. -/
theorem C7_roundtrip (x1 y1 x2 y2 sx sy h : ℚ)
    (hx : x1 < x2) (hy : y1 < y2) (hsx : 0 < sx) (hsy : 0 < sy) :
    ((pt_from_pixel (poly_to_quad (bbox_to_poly [x1, y1, x2, y2])) (sx, sy)
          h).getD 0 0 / sx = x1 ∧
     h - (pt_from_pixel (poly_to_quad (bbox_to_poly [x1, y1, x2, y2]))
          (sx, sy) h).getD 1 0 / sy = y1) ∧
    ((pt_from_pixel (poly_to_quad (bbox_to_poly [x1, y1, x2, y2])) (sx, sy)
          h).getD 4 0 / sx = x2 ∧
     h - (pt_from_pixel (poly_to_quad (bbox_to_poly [x1, y1, x2, y2]))
          (sx, sy) h).getD 5 0 / sy = y2) ∧
    ((pt_from_pixel (poly_to_quad (bbox_to_poly [x1, y1, x2, y2])) (sx, sy)
          h).getD 6 0 / sx = x1 ∧
     h - (pt_from_pixel (poly_to_quad (bbox_to_poly [x1, y1, x2, y2]))
          (sx, sy) h).getD 7 0 / sy = y2) := by
  have hsx0 : sx ≠ 0 := ne_of_gt hsx
  have hsy0 : sy ≠ 0 := ne_of_gt hsy
  have hpts : pt_from_pixel (poly_to_quad (bbox_to_poly [x1, y1, x2, y2]))
      (sx, sy) h =
      [x1 * sx, (h - y1) * sy, x2 * sx, (h - y1) * sy,
       x2 * sx, (h - y2) * sy, x1 * sx, (h - y2) * sy] := by
    simp [bbox_to_poly, poly_to_quad, pt_from_pixel, toPairs]
  rw [hpts]
  simp only [List.getD_cons_zero, List.getD_cons_succ]
  refine ⟨⟨?_, ?_⟩, ⟨?_, ?_⟩, ?_, ?_⟩ <;> field_simp

/-- C7 witness at bbox [0,0,2,1], scale (3,5), height 7. -/
theorem C7_roundtrip_witness :
    ((pt_from_pixel (poly_to_quad (bbox_to_poly [0, 0, 2, 1])) (3, 5)
          7).getD 0 0 / 3 = 0 ∧
     7 - (pt_from_pixel (poly_to_quad (bbox_to_poly [0, 0, 2, 1]))
          (3, 5) 7).getD 1 0 / 5 = 0) ∧
    ((pt_from_pixel (poly_to_quad (bbox_to_poly [0, 0, 2, 1])) (3, 5)
          7).getD 4 0 / 3 = 2 ∧
     7 - (pt_from_pixel (poly_to_quad (bbox_to_poly [0, 0, 2, 1]))
          (3, 5) 7).getD 5 0 / 5 = 1) ∧
    ((pt_from_pixel (poly_to_quad (bbox_to_poly [0, 0, 2, 1])) (3, 5)
          7).getD 6 0 / 3 = 0 ∧
     7 - (pt_from_pixel (poly_to_quad (bbox_to_poly [0, 0, 2, 1]))
          (3, 5) 7).getD 7 0 / 5 = 1) :=
  C7_roundtrip 0 0 2 1 3 5 7 (by norm_num) (by norm_num) (by norm_num)
    (by norm_num)

/-- C8: a missing image file, a non-positive image scale, or
non-positive image dimensions each produce an error before any document
resource is allocated (the event trace is empty), while OCR words,
blocks and result content never reach this fatal path — with valid
image inputs the function succeeds for every OCR result. -/
theorem C8_input_validation (ops : FloatOps) (imageExists : Bool)
    (img : ImageInfo) (image_scale : ℚ) (ocr_result : Option PaddleResult)
    (boxes : Bool) :
    ((imageExists = false ∨ image_scale ≤ 0 ∨ img.width ≤ 0 ∨
        img.height ≤ 0) →
      (paddleocr_to_pdf ops imageExists img image_scale ocr_result
          boxes).1 = [] ∧
      ∃ e, (paddleocr_to_pdf ops imageExists img image_scale ocr_result
          boxes).2 = Except.error e) ∧
    (imageExists = true → 0 < image_scale → 0 < img.width →
      0 < img.height →
      ∃ cs, (paddleocr_to_pdf ops imageExists img image_scale ocr_result
          boxes).2 = Except.ok cs) := by
  constructor
  · intro hbad
    by_cases he : imageExists = false
    · simp [paddleocr_to_pdf, he]
    · by_cases hs : image_scale ≤ 0
      · simp [paddleocr_to_pdf, he, hs]
      · have hd : img.width ≤ 0 ∨ img.height ≤ 0 := by
          rcases hbad with h | h | h | h
          · exact absurd h he
          · exact absurd h hs
          · exact Or.inl h
          · exact Or.inr h
        simp [paddleocr_to_pdf, he, hs, hd]
  · intro h1 h2 h3 h4
    have hne : ¬(imageExists = false) := by simp [h1]
    have hs : ¬(image_scale ≤ 0) := not_le.mpr h2
    have hd : ¬(img.width ≤ 0 ∨ img.height ≤ 0) := by
      push_neg
      exact ⟨not_le.mp (by simpa using not_le.mpr h3), by
        simpa using not_le.mpr h4⟩
    simp [paddleocr_to_pdf, hne, hs, hd]

/-- C8 witness: a missing image errors with an empty event trace; a
valid image with a missing OCR result succeeds. -/
theorem C8_input_validation_witness :
    ((paddleocr_to_pdf stdOps false ⟨none, 100, 100⟩ 1 none false).1 = [] ∧
      ∃ e, (paddleocr_to_pdf stdOps false ⟨none, 100, 100⟩ 1 none
          false).2 = Except.error e) ∧
    (∃ cs, (paddleocr_to_pdf stdOps true ⟨none, 100, 100⟩ 1 none
        false).2 = Except.ok cs) :=
  ⟨(C8_input_validation stdOps false ⟨none, 100, 100⟩ 1 none false).1
      (Or.inl rfl),
   (C8_input_validation stdOps true ⟨none, 100, 100⟩ 1 none false).2 rfl
      (by norm_num) (by decide) (by decide)⟩

end OcrPdf
